import Mathlib

/-!
Verification of the matching engine of the Job Matching System
(src/PROJECT/main.py) against its natural-language specification.

The scoring pipeline (`calculate_job_match_score`), the recommendation
query (`get_job_recommendations`) and the notification batch
(`notify_matching_candidates`) are embedded shallowly below.  Python
`int` values become `ℤ`/`ℕ`, SQL `Numeric(10,2)` columns (read as
Python `Decimal`, whose arithmetic is exact at the precisions occurring
here) become `ℚ`, nullable columns become `Option _`, and SQL tables
become Lean lists.  Python `float` arithmetic (used by the scorer in
`experience * 0.7`, `experience * 0.5` and `(matched / total) * 50`)
is modelled exactly: `fl` below is round-to-nearest, ties-to-even onto
the IEEE-754 binary64 grid, expressed over `ℚ`.  The magnitudes reached
by the scorer are far inside the normal range of binary64, so neither
overflow nor subnormal rounding arises and `fl` is the exact semantics
of the Python evaluation.
-/

namespace JobMatch

/-- Round a rational to the nearest integer, ties to even
(IEEE-754 default rounding applied to an integer grid). -/
def rne (q : ℚ) : ℤ :=
  if q - ⌊q⌋ < 1/2 then ⌊q⌋
  else if 1/2 < q - ⌊q⌋ then ⌊q⌋ + 1
  else if ⌊q⌋ % 2 = 0 then ⌊q⌋ else ⌊q⌋ + 1

/-- Round-to-nearest-even of a positive rational onto the binary64 grid:
the grid around `q` has spacing `2 ^ (Int.log 2 q - 52)`. -/
def flPos (q : ℚ) : ℚ :=
  (rne (q * 2 ^ ((52 : ℤ) - Int.log 2 q)) : ℚ) * 2 ^ (Int.log 2 q - (52 : ℤ))

/-- Correctly rounded image of a rational in binary64 (sign-symmetric,
zero preserved).  Exact for the mid-range magnitudes used by the scorer. -/
def fl (q : ℚ) : ℚ :=
  if 0 < q then flPos q else if q < 0 then -flPos (-q) else 0

theorem rne_intCast (n : ℤ) : rne (n : ℚ) = n := by
  simp [rne]

theorem rne_le (q : ℚ) : (rne q : ℚ) ≤ q + 1/2 := by
  unfold rne
  have hf := Int.floor_le q
  have hf1 := Int.lt_floor_add_one q
  split_ifs with h1 h2 h3 <;> push_cast <;> linarith

theorem le_rne (q : ℚ) : q - 1/2 ≤ (rne q : ℚ) := by
  unfold rne
  have hf := Int.floor_le q
  have hf1 := Int.lt_floor_add_one q
  split_ifs with h1 h2 h3 <;> push_cast <;> linarith

theorem floor_le_rne (q : ℚ) : ⌊q⌋ ≤ rne q := by
  unfold rne
  split_ifs <;> omega

theorem rne_le_floor_add_one (q : ℚ) : rne q ≤ ⌊q⌋ + 1 := by
  unfold rne
  split_ifs <;> omega

theorem rne_le_of_le_int {q : ℚ} {k : ℤ} (h : q ≤ (k : ℚ)) : rne q ≤ k := by
  rcases eq_or_lt_of_le h with h' | h'
  · rw [h', rne_intCast]
  · have hfl : ⌊q⌋ < k := Int.floor_lt.mpr h'
    have := rne_le_floor_add_one q
    omega

theorem int_le_rne {q : ℚ} {k : ℤ} (h : (k : ℚ) ≤ q) : k ≤ rne q := by
  have hk : k ≤ ⌊q⌋ := Int.le_floor.mpr h
  have := floor_le_rne q
  omega

theorem rne_mono {q q' : ℚ} (h : q ≤ q') : rne q ≤ rne q' := by
  rcases eq_or_lt_of_le h with h' | h'
  · subst h'; exact le_refl _
  · by_contra hc
    push_neg at hc
    have h1 : (rne q' : ℚ) + 1 ≤ (rne q : ℚ) := by exact_mod_cast hc
    have h2 := rne_le q
    have h3 := le_rne q'
    linarith

theorem two_zpow_pos (n : ℤ) : (0:ℚ) < 2 ^ n := zpow_pos (by norm_num) n

theorem zpow_log_le {q : ℚ} (hq : 0 < q) : (2:ℚ) ^ Int.log 2 q ≤ q := by
  have := Int.zpow_log_le_self (b := 2) (by norm_num) hq
  simpa using this

theorem lt_zpow_log_succ (q : ℚ) : q < (2:ℚ) ^ (Int.log 2 q + 1) := by
  have := Int.lt_zpow_succ_log_self (b := 2) (by norm_num) q
  simpa using this

theorem two_zpow_mul_cancel (m : ℤ) : (2:ℚ) ^ m * (2:ℚ) ^ (-m) = 1 := by
  rw [← zpow_add₀ (by norm_num : (2:ℚ) ≠ 0)]
  simp

theorem flPos_le {q : ℚ} (hq : 0 < q) : flPos q ≤ q + q / 2 ^ 53 := by
  set E := Int.log 2 q with hE
  have hs : (0:ℚ) < 2 ^ (E - 52) := two_zpow_pos _
  have hb := rne_le (q * 2 ^ ((52:ℤ) - E))
  have h1 : flPos q ≤ (q * 2 ^ ((52:ℤ) - E) + 1/2) * 2 ^ (E - 52) :=
    mul_le_mul_of_nonneg_right hb (le_of_lt hs)
  have hprod : (2:ℚ) ^ ((52:ℤ) - E) * 2 ^ (E - 52) = 1 := by
    rw [← zpow_add₀ (by norm_num : (2:ℚ) ≠ 0)]; norm_num
  have h2 : (q * 2 ^ ((52:ℤ) - E) + 1/2) * 2 ^ (E - 52)
      = q * ((2:ℚ) ^ ((52:ℤ) - E) * 2 ^ (E - 52)) + 1/2 * 2 ^ (E - 52) := by ring
  rw [h2, hprod, mul_one] at h1
  have h3 : (1:ℚ)/2 * 2 ^ (E - 52) = 2 ^ E / 2 ^ 53 := by
    rw [zpow_sub₀ (by norm_num : (2:ℚ) ≠ 0)]
    rw [show ((2:ℚ) ^ (53:ℕ)) = 2 ^ ((52:ℤ)) * 2 from by
      rw [show ((2:ℚ) ^ (53:ℕ)) = (2:ℚ) ^ ((53:ℤ)) from by norm_num,
        show ((53:ℤ)) = 52 + 1 from by norm_num,
        zpow_add₀ (by norm_num : (2:ℚ) ≠ 0)]
      norm_num]
    ring
  rw [h3] at h1
  have h4 : (2:ℚ) ^ E / 2 ^ 53 ≤ q / 2 ^ 53 := by
    have := zpow_log_le hq
    rw [← hE] at this
    gcongr
  linarith

theorem le_flPos {q : ℚ} (hq : 0 < q) : q - q / 2 ^ 53 ≤ flPos q := by
  set E := Int.log 2 q with hE
  have hs : (0:ℚ) < 2 ^ (E - 52) := two_zpow_pos _
  have hb := le_rne (q * 2 ^ ((52:ℤ) - E))
  have h1 : (q * 2 ^ ((52:ℤ) - E) - 1/2) * 2 ^ (E - 52) ≤ flPos q :=
    mul_le_mul_of_nonneg_right hb (le_of_lt hs)
  have hprod : (2:ℚ) ^ ((52:ℤ) - E) * 2 ^ (E - 52) = 1 := by
    rw [← zpow_add₀ (by norm_num : (2:ℚ) ≠ 0)]; norm_num
  have h2 : (q * 2 ^ ((52:ℤ) - E) - 1/2) * 2 ^ (E - 52)
      = q * ((2:ℚ) ^ ((52:ℤ) - E) * 2 ^ (E - 52)) - 1/2 * 2 ^ (E - 52) := by ring
  rw [h2, hprod, mul_one] at h1
  have h3 : (1:ℚ)/2 * 2 ^ (E - 52) = 2 ^ E / 2 ^ 53 := by
    rw [zpow_sub₀ (by norm_num : (2:ℚ) ≠ 0)]
    rw [show ((2:ℚ) ^ (53:ℕ)) = 2 ^ ((52:ℤ)) * 2 from by
      rw [show ((2:ℚ) ^ (53:ℕ)) = (2:ℚ) ^ ((53:ℤ)) from by norm_num,
        show ((53:ℤ)) = 52 + 1 from by norm_num,
        zpow_add₀ (by norm_num : (2:ℚ) ≠ 0)]
      norm_num]
    ring
  rw [h3] at h1
  have h4 : (2:ℚ) ^ E / 2 ^ 53 ≤ q / 2 ^ 53 := by
    have := zpow_log_le hq
    rw [← hE] at this
    gcongr
  linarith

theorem flPos_nonneg {q : ℚ} (hq : 0 < q) : 0 ≤ flPos q := by
  have hx : ((0:ℤ):ℚ) ≤ q * 2 ^ ((52:ℤ) - Int.log 2 q) := by
    have := two_zpow_pos ((52:ℤ) - Int.log 2 q)
    push_cast
    positivity
  have h := int_le_rne hx
  have hs : (0:ℚ) ≤ 2 ^ (Int.log 2 q - (52:ℤ)) := le_of_lt (two_zpow_pos _)
  unfold flPos
  have : (0:ℚ) ≤ (rne (q * 2 ^ ((52:ℤ) - Int.log 2 q)) : ℚ) := by exact_mod_cast h
  positivity

theorem flPos_le_of_le_grid {q : ℚ} (hq : 0 < q) {k : ℤ}
    (hqk : q ≤ (k : ℚ) * 2 ^ (Int.log 2 q - (52:ℤ))) :
    flPos q ≤ (k : ℚ) * 2 ^ (Int.log 2 q - (52:ℤ)) := by
  set E := Int.log 2 q with hE
  have hs : (0:ℚ) < 2 ^ ((52:ℤ) - E) := two_zpow_pos _
  have hprod : (2:ℚ) ^ (E - 52) * 2 ^ ((52:ℤ) - E) = 1 := by
    rw [← zpow_add₀ (by norm_num : (2:ℚ) ≠ 0)]; norm_num
  have hx : q * 2 ^ ((52:ℤ) - E) ≤ (k : ℚ) := by
    have := mul_le_mul_of_nonneg_right hqk (le_of_lt hs)
    calc q * 2 ^ ((52:ℤ) - E) ≤ (k : ℚ) * 2 ^ (E - 52) * 2 ^ ((52:ℤ) - E) := this
    _ = (k : ℚ) * ((2:ℚ) ^ (E - 52) * 2 ^ ((52:ℤ) - E)) := by ring
    _ = (k : ℚ) := by rw [hprod, mul_one]
  have h := rne_le_of_le_int hx
  unfold flPos
  rw [← hE]
  have hs2 : (0:ℚ) ≤ 2 ^ (E - (52:ℤ)) := le_of_lt (two_zpow_pos _)
  exact mul_le_mul_of_nonneg_right (by exact_mod_cast h) hs2

theorem flPos_grid_self {q : ℚ} (hq : 0 < q) {k : ℤ}
    (hk : q = (k : ℚ) * 2 ^ (Int.log 2 q - (52:ℤ))) : flPos q = q := by
  set E := Int.log 2 q with hE
  have hprod : (2:ℚ) ^ (E - 52) * 2 ^ ((52:ℤ) - E) = 1 := by
    rw [← zpow_add₀ (by norm_num : (2:ℚ) ≠ 0)]; norm_num
  have hx : q * 2 ^ ((52:ℤ) - E) = (k : ℚ) := by
    rw [hk]
    calc (k : ℚ) * 2 ^ (E - 52) * 2 ^ ((52:ℤ) - E)
        = (k : ℚ) * ((2:ℚ) ^ (E - 52) * 2 ^ ((52:ℤ) - E)) := by ring
    _ = (k : ℚ) := by rw [hprod, mul_one]
  unfold flPos
  rw [← hE, hx, rne_intCast, ← hk]

theorem cast_two_pow_int (m : ℕ) : (((2:ℤ) ^ m : ℤ) : ℚ) = (2:ℚ) ^ ((m:ℤ)) := by
  rw [zpow_natCast]
  push_cast
  ring

theorem flPos_le_binade_hi {q : ℚ} (hq : 0 < q) :
    flPos q ≤ (2:ℚ) ^ (Int.log 2 q + 1) := by
  set E := Int.log 2 q with hE
  have hup : q < (2:ℚ) ^ (E + 1) := by rw [hE]; exact lt_zpow_log_succ q
  have hs : (0:ℚ) < 2 ^ ((52:ℤ) - E) := two_zpow_pos _
  have hx : q * 2 ^ ((52:ℤ) - E) ≤ (((2:ℤ) ^ (53:ℕ) : ℤ) : ℚ) := by
    have h1 : q * 2 ^ ((52:ℤ) - E) < (2:ℚ) ^ (E + 1) * 2 ^ ((52:ℤ) - E) :=
      mul_lt_mul_of_pos_right hup hs
    have h2 : (2:ℚ) ^ (E + 1) * 2 ^ ((52:ℤ) - E) = 2 ^ ((53:ℤ)) := by
      rw [← zpow_add₀ (by norm_num : (2:ℚ) ≠ 0)]
      congr 1
      ring
    rw [cast_two_pow_int]
    have : ((53:ℕ):ℤ) = (53:ℤ) := by norm_num
    rw [this]
    linarith
  have h := rne_le_of_le_int hx
  unfold flPos
  rw [← hE]
  have hs2 : (0:ℚ) ≤ 2 ^ (E - (52:ℤ)) := le_of_lt (two_zpow_pos _)
  calc (rne (q * 2 ^ ((52:ℤ) - E)) : ℚ) * 2 ^ (E - (52:ℤ))
      ≤ (((2:ℤ) ^ (53:ℕ) : ℤ) : ℚ) * 2 ^ (E - (52:ℤ)) :=
        mul_le_mul_of_nonneg_right (by exact_mod_cast h) hs2
  _ = (2:ℚ) ^ (E + 1) := by
      rw [cast_two_pow_int]
      rw [show (((53:ℕ):ℤ)) = (53:ℤ) from by norm_num,
        ← zpow_add₀ (by norm_num : (2:ℚ) ≠ 0)]
      congr 1
      ring

theorem binade_lo_le_flPos {q : ℚ} (hq : 0 < q) :
    (2:ℚ) ^ Int.log 2 q ≤ flPos q := by
  set E := Int.log 2 q with hE
  have hlo : (2:ℚ) ^ E ≤ q := by rw [hE]; exact zpow_log_le hq
  have hs : (0:ℚ) < 2 ^ ((52:ℤ) - E) := two_zpow_pos _
  have hx : (((2:ℤ) ^ (52:ℕ) : ℤ) : ℚ) ≤ q * 2 ^ ((52:ℤ) - E) := by
    have h1 : (2:ℚ) ^ E * 2 ^ ((52:ℤ) - E) ≤ q * 2 ^ ((52:ℤ) - E) :=
      mul_le_mul_of_nonneg_right hlo (le_of_lt hs)
    have h2 : (2:ℚ) ^ E * 2 ^ ((52:ℤ) - E) = 2 ^ ((52:ℤ)) := by
      rw [← zpow_add₀ (by norm_num : (2:ℚ) ≠ 0)]
      congr 1
      ring
    rw [cast_two_pow_int]
    have : ((52:ℕ):ℤ) = (52:ℤ) := by norm_num
    rw [this]
    linarith
  have h := int_le_rne hx
  unfold flPos
  rw [← hE]
  have hs2 : (0:ℚ) ≤ 2 ^ (E - (52:ℤ)) := le_of_lt (two_zpow_pos _)
  calc (2:ℚ) ^ E = (((2:ℤ) ^ (52:ℕ) : ℤ) : ℚ) * 2 ^ (E - (52:ℤ)) := by
        rw [cast_two_pow_int]
        rw [show (((52:ℕ):ℤ)) = (52:ℤ) from by norm_num,
          ← zpow_add₀ (by norm_num : (2:ℚ) ≠ 0)]
        congr 1
        ring
  _ ≤ (rne (q * 2 ^ ((52:ℤ) - E)) : ℚ) * 2 ^ (E - (52:ℤ)) :=
        mul_le_mul_of_nonneg_right (by exact_mod_cast h) hs2

theorem flPos_mono {q q' : ℚ} (hq : 0 < q) (h : q ≤ q') : flPos q ≤ flPos q' := by
  have hq' : 0 < q' := lt_of_lt_of_le hq h
  have hEle : Int.log 2 q ≤ Int.log 2 q' := Int.log_mono_right hq h
  rcases eq_or_lt_of_le hEle with hEeq | hElt
  · -- same binade: same grid, monotone rounding
    have hs : (0:ℚ) ≤ 2 ^ (Int.log 2 q - (52:ℤ)) := le_of_lt (two_zpow_pos _)
    have hx : q * 2 ^ ((52:ℤ) - Int.log 2 q) ≤ q' * 2 ^ ((52:ℤ) - Int.log 2 q) :=
      mul_le_mul_of_nonneg_right h (le_of_lt (two_zpow_pos _))
    have hr := rne_mono hx
    unfold flPos
    rw [← hEeq]
    exact mul_le_mul_of_nonneg_right (by exact_mod_cast hr) hs
  · -- q rounds below the top of its binade, q' above the bottom of a higher one
    calc flPos q ≤ (2:ℚ) ^ (Int.log 2 q + 1) := flPos_le_binade_hi hq
    _ ≤ (2:ℚ) ^ (Int.log 2 q') := zpow_le_zpow_right₀ (by norm_num) (by omega)
    _ ≤ flPos q' := binade_lo_le_flPos hq'

theorem fl_zero : fl 0 = 0 := by simp [fl]

theorem fl_of_pos {q : ℚ} (hq : 0 < q) : fl q = flPos q := by simp [fl, hq]

theorem fl_nonneg {q : ℚ} (h : 0 ≤ q) : 0 ≤ fl q := by
  rcases eq_or_lt_of_le h with h' | h'
  · rw [← h', fl_zero]
  · rw [fl_of_pos h']
    exact flPos_nonneg h'

theorem fl_mono {q q' : ℚ} (h0 : 0 ≤ q) (h : q ≤ q') : fl q ≤ fl q' := by
  rcases eq_or_lt_of_le h0 with h' | h'
  · rw [← h', fl_zero]
    exact fl_nonneg (le_trans h0 h)
  · rw [fl_of_pos h', fl_of_pos (lt_of_lt_of_le h' h)]
    exact flPos_mono h' h

theorem fl_le {q : ℚ} (h : 0 ≤ q) : fl q ≤ q + q / 2 ^ 53 := by
  rcases eq_or_lt_of_le h with h' | h'
  · rw [← h', fl_zero]; norm_num
  · rw [fl_of_pos h']; exact flPos_le h'

theorem le_fl {q : ℚ} (h : 0 ≤ q) : q - q / 2 ^ 53 ≤ fl q := by
  rcases eq_or_lt_of_le h with h' | h'
  · rw [← h', fl_zero]; norm_num
  · rw [fl_of_pos h']; exact le_flPos h'

theorem log_le_of_lt_two_pow {q : ℚ} (hq : 0 < q) {m : ℕ}
    (h : q < 2 ^ m) : Int.log 2 q ≤ (m:ℤ) - 1 := by
  have h2 : q < ((2:ℕ):ℚ) ^ ((m:ℤ)) := by
    push_cast
    rw [show ((2:ℚ) ^ ((m:ℤ))) = (2:ℚ) ^ (m:ℕ) from by norm_num]
    exact h
  have := (Int.lt_zpow_iff_log_lt (b := 2) (by norm_num) hq).mp h2
  omega

theorem fl_natCast {n : ℕ} (h : n < 2 ^ 53) : fl (n : ℚ) = n := by
  rcases Nat.eq_zero_or_pos n with h0 | h0
  · subst h0; simpa using fl_zero
  · have hq : (0:ℚ) < n := by exact_mod_cast h0
    rw [fl_of_pos hq]
    have hqlt : (n:ℚ) < 2 ^ (53:ℕ) := by exact_mod_cast h
    have hE : Int.log 2 (n:ℚ) ≤ 52 := by
      have := log_le_of_lt_two_pow hq hqlt
      omega
    have hE0 : 0 ≤ Int.log 2 (n:ℚ) := by
      have h1 : ((2:ℕ):ℚ)^((0:ℤ)) ≤ (n:ℚ) := by
        push_cast
        norm_num
        exact_mod_cast h0
      exact (Int.zpow_le_iff_le_log (by norm_num) hq).mp h1
    apply flPos_grid_self hq (k := (n:ℤ) * 2 ^ ((52 - Int.log 2 (n:ℚ)).toNat))
    have htn : (((52 - Int.log 2 (n:ℚ)).toNat : ℤ)) = 52 - Int.log 2 (n:ℚ) :=
      Int.toNat_of_nonneg (by omega)
    push_cast
    rw [show ((2:ℚ) ^ ((52 - Int.log 2 (n:ℚ)).toNat : ℕ))
        = (2:ℚ) ^ (((52 - Int.log 2 (n:ℚ)).toNat : ℤ)) from by norm_num, htn,
      mul_assoc, ← zpow_add₀ (by norm_num : (2:ℚ) ≠ 0)]
    norm_num

theorem fl_intCast {z : ℤ} (h0 : 0 ≤ z) (h : z < 2 ^ 53) : fl (z : ℚ) = z := by
  obtain ⟨n, rfl⟩ := Int.eq_ofNat_of_zero_le h0
  have : n < 2 ^ 53 := by exact_mod_cast h
  exact_mod_cast fl_natCast this

theorem fl_one : fl 1 = 1 := by
  have := fl_natCast (n := 1) (by norm_num)
  simpa using this

theorem log_eq_of_bounds {q : ℚ} {e : ℤ} (h0 : 0 < q)
    (h1 : (2:ℚ) ^ e ≤ q) (h2 : q < 2 ^ (e + 1)) : Int.log 2 q = e := by
  have h1' : ((2:ℕ):ℚ) ^ e ≤ q := by push_cast; exact h1
  have h2' : q < ((2:ℕ):ℚ) ^ (e + 1) := by push_cast; exact h2
  have hle := (Int.zpow_le_iff_le_log (b := 2) (by norm_num) h0).mp h1'
  have hlt := (Int.lt_zpow_iff_log_lt (b := 2) (by norm_num) h0).mp h2'
  omega

theorem flPos_eval {q : ℚ} {e R : ℤ} (h0 : 0 < q)
    (h1 : (2:ℚ) ^ e ≤ q) (h2 : q < 2 ^ (e + 1))
    (h3 : rne (q * 2 ^ ((52:ℤ) - e)) = R) :
    fl q = (R : ℚ) * 2 ^ (e - (52:ℤ)) := by
  rw [fl_of_pos h0]
  unfold flPos
  rw [log_eq_of_bounds h0 h1 h2, h3]

theorem rne_eval_down {q : ℚ} {n : ℤ} (h1 : (n:ℚ) ≤ q) (h2 : q < (n:ℚ) + 1/2) :
    rne q = n := by
  have hfl : ⌊q⌋ = n := Int.floor_eq_iff.mpr ⟨h1, by linarith⟩
  unfold rne
  rw [hfl]
  have hlt : q - (n:ℚ) < 1/2 := by linarith
  rw [if_pos hlt]

/-! ## Data model

One structure per SQLAlchemy model, keeping the fields the matching
engine reads (the remaining columns are CRUD-only and never touched by
the embedded functions).  `db.Integer` columns are `ℤ`/`ℕ`,
`db.Numeric(10,2)` columns are `Option ℚ` (nullable), `db.String`
columns `Option String` where nullable. -/

/-- `users` table: the engine reads `id` and `is_active` (main.py 123-136). -/
structure User where
  id : ℕ
  is_active : Bool

/-- `companies` table: the engine reads `id` (main.py 140-151). -/
structure Company where
  id : ℕ
  company_name : String

/-- `candidate_profiles` table (main.py 154-171). -/
structure CandidateProfile where
  id : ℕ
  user_id : ℕ
  experience_years : ℤ
  location : Option String
  salary_expectation : Option ℚ

/-- `job_postings` table (main.py 173-191). -/
structure JobPosting where
  id : ℕ
  company_id : ℕ
  title : String
  location : Option String
  experience_required : ℤ
  salary_min : Option ℚ
  salary_max : Option ℚ
  is_active : Bool

/-- `job_applications` table: the engine reads the two foreign keys
(main.py 192-201). -/
structure JobApplication where
  job_id : ℕ
  candidate_id : ℕ

/-- `candidate_skills` table (main.py 262-268): the scorer uses only
`skill_id` membership, not proficiency or years. -/
structure CandidateSkill where
  candidate_id : ℕ
  skill_id : ℕ

/-- The `importance` enum of `job_required_skills`
('Required' / 'Preferred' / 'Nice to have'). -/
inductive Importance where
  | required
  | preferred
  | niceToHave
deriving DecidableEq

/-- `job_required_skills` table (main.py 270-276). -/
structure JobRequiredSkill where
  job_id : ℕ
  skill_id : ℕ
  importance : Importance
  min_years_experience : ℕ

/-- `notifications` row as built by `create_notification` (main.py 291-300,
338-353). -/
structure Notification where
  user_id : ℕ
  title : String
  message : String
  notification_type : String
  action_url : Option String

/-- The relational state the engine queries: one list per table. -/
structure DB where
  users : List User
  companies : List Company
  candidates : List CandidateProfile
  jobs : List JobPosting
  applications : List JobApplication
  candidateSkills : List CandidateSkill
  jobRequiredSkills : List JobRequiredSkill

/-! ## Python-semantics helpers -/

/-- Python `int(x)` on a float: truncation toward zero. -/
def pytrunc (q : ℚ) : ℤ := if q < 0 then -⌊-q⌋ else ⌊q⌋

/-- Python `str.lower()` viewed as a character list (ASCII view; the
locations compared by the scorer are plain text and only the
case-insensitivity matters here). -/
def pyLower (s : String) : List Char := s.toList.map Char.toLower

/-- Does the second list begin with the first? -/
def isPrefixChars : List Char → List Char → Bool
  | [], _ => true
  | _ :: _, [] => false
  | a :: s, b :: t => a == b && isPrefixChars s t

/-- Python `needle in hay` on strings: substring containment, here on
the character lists. -/
def charsContain (needle hay : List Char) : Bool :=
  match hay with
  | [] => needle.isEmpty
  | _ :: t => isPrefixChars needle hay || charsContain needle t

/-- The float literal `0.7` of main.py line 405: the binary64 nearest 7/10. -/
def c07 : ℚ := fl (7/10)

/-- The float literal `0.5` of main.py line 407: exactly 1/2 in binary64. -/
def c05 : ℚ := fl (1/2)

/-! ## ScoreCalculator (`calculate_job_match_score`, main.py 392-446) -/

/-- Experience component (main.py 403-409).  `experience_required * 0.7`
is evaluated in binary64 (the int is first converted, exactly for the
INTEGER column range), and Python compares the int `experience_years`
against the float exactly, hence the exact `≤` on `ℚ`. -/
def expComponent (eyears ereq : ℤ) : ℤ :=
  if ereq ≤ eyears then 30
  else if fl (fl (ereq : ℚ) * c07) ≤ (eyears : ℚ) then 20
  else if fl (fl (ereq : ℚ) * c05) ≤ (eyears : ℚ) then 10
  else 0

/-- Per-skill weight: `3 if importance == 'Required' else 2 if importance
== 'Preferred' else 1` (main.py 419). -/
def importanceWeight : Importance → ℕ
  | .required => 3
  | .preferred => 2
  | .niceToHave => 1

/-- `total_weight` accumulated by the loop of main.py 418-423. -/
def sumWeights : List JobRequiredSkill → ℕ
  | [] => 0
  | r :: rest => importanceWeight r.importance + sumWeights rest

/-- `matched_skills` accumulated by the loop of main.py 418-423:
weights of required skills whose `skill_id` the candidate holds. -/
def matchedWeights (ids : List ℕ) : List JobRequiredSkill → ℕ
  | [] => 0
  | r :: rest =>
    (if r.skill_id ∈ ids then importanceWeight r.importance else 0)
      + matchedWeights ids rest

/-- Skills component (main.py 411-428).  `matched_skills / total_weight`
is Python true division of two ints: both are converted to binary64 and
the quotient is correctly rounded; `* 50` is a second correctly rounded
binary64 operation; `int(...)` truncates. -/
def skillsComponent (rs : List JobRequiredSkill) (ids : List ℕ) : ℤ :=
  if rs.isEmpty then 25
  else if 0 < sumWeights rs then
    pytrunc (fl (fl (fl (matchedWeights ids rs : ℚ)
      / fl (sumWeights rs : ℚ)) * 50))
  else 0

/-- Location component (main.py 430-435).  `if candidate.location and
job.location` is Python truthiness: present and non-empty. -/
def locComponent (cloc jloc : Option String) : ℤ :=
  match cloc, jloc with
  | some c, some j =>
    if c ≠ "" ∧ j ≠ "" then
      if charsContain (pyLower c) (pyLower j)
          || charsContain (pyLower j) (pyLower c) then 10
      else 5
    else 0
  | _, _ => 0

/-- Salary component (main.py 437-444).  The guard is Python truthiness
(present and non-zero).  All three columns are `Numeric(10,2)` read as
`Decimal`, and `Decimal('1.2') = 6/5`; at these precisions (≤ 12
significant digits against a 28-digit context) every Decimal operation
performed is exact, so `ℚ` arithmetic is the exact semantics. -/
def salComponent (sexp smin smax : Option ℚ) : ℤ :=
  match sexp, smin, smax with
  | some e, some a, some b =>
    if e ≠ 0 ∧ a ≠ 0 ∧ b ≠ 0 then
      if a ≤ e ∧ e ≤ b then 10
      else if e ≤ b * (6/5) then 5
      else 0
    else 0
  | _, _, _ => 0

/-- Body of `calculate_job_match_score` after the two entity fetches:
the four components accumulate into `score` and the result is
`min(score, max_score)` with `max_score = 100` (main.py 399-446). -/
def matchScore (cand : CandidateProfile) (job : JobPosting)
    (rs : List JobRequiredSkill) (cs : List CandidateSkill) : ℤ :=
  min (expComponent cand.experience_years job.experience_required
      + skillsComponent rs (cs.map (fun s => s.skill_id))
      + locComponent cand.location job.location
      + salComponent cand.salary_expectation job.salary_min job.salary_max)
    100

/-- `calculate_job_match_score(candidate_id, job_id)` (main.py 392-446):
fetch by primary key, return 0 when either entity is missing, otherwise
score the pair against the job's required skills and the candidate's
skills. -/
def calculate_job_match_score (db : DB) (candidate_id job_id : ℕ) : ℤ :=
  match db.candidates.find? (fun c => c.id == candidate_id),
        db.jobs.find? (fun j => j.id == job_id) with
  | some cand, some job =>
      matchScore cand job
        (db.jobRequiredSkills.filter (fun r => r.job_id == job_id))
        (db.candidateSkills.filter (fun s => s.candidate_id == candidate_id))
  | _, _ => 0

/-! ## RecommendationEngine (`get_job_recommendations`, main.py 624-656) -/

/-- One entry of the recommendation list: the dict
`{'job': ..., 'company': ..., 'match_score': ...}` of main.py 646-650. -/
structure RecEntry where
  job : JobPosting
  company : Company
  match_score : ℤ

/-- `get_job_recommendations(candidate_id)` (main.py 624-656): absent
candidate gives `[]`; otherwise active postings not yet applied to
(inner-joined with their company), scored, kept when `score > 30`,
sorted by score descending (Python's stable sort with `reverse=True`),
truncated to 10. -/
def get_job_recommendations (db : DB) (candidate_id : ℕ) : List RecEntry :=
  match db.candidates.find? (fun c => c.id == candidate_id) with
  | none => []
  | some _ =>
    let applied := (db.applications.filter
      (fun a => a.candidate_id == candidate_id)).map (fun a => a.job_id)
    let available := db.jobs.filterMap (fun j =>
      if j.is_active && !(applied.contains j.id) then
        (db.companies.find? (fun co => co.id == j.company_id)).map
          (fun co => (j, co))
      else none)
    let job_matches := available.filterMap (fun jc =>
      let s := calculate_job_match_score db candidate_id jc.1.id
      if 30 < s then some ⟨jc.1, jc.2, s⟩ else none)
    (job_matches.mergeSort
      (fun a b => decide (b.match_score ≤ a.match_score))).take 10

/-! ## MatchNotifier (`notify_matching_candidates`, main.py 1096-1114,
and `create_notification`, main.py 338-353) -/

/-- Outcome of one `create_notification` call: the row was committed, or
the write raised and the exception was caught, rolled back and logged. -/
inductive NotifyEvent where
  | created (n : Notification)
  | errorLogged (n : Notification)

/-- `create_notification` (main.py 338-353): the insert/commit is tried
against the sink; any exception is caught inside the function (rollback
plus `logger.error`), so the caller always gets a normal return. -/
def create_notification (sink : Notification → Bool) (n : Notification) :
    List NotifyEvent :=
  if sink n then [NotifyEvent.created n] else [NotifyEvent.errorLogged n]

/-- `url_for('job_details', job_id=job_id)` against the route
`@app.route('/job/<int:job_id>')` (main.py 1616). -/
def jobUrl (job_id : ℕ) : String := "/job/" ++ toString job_id

/-- The notification built for a matching candidate (main.py 1107-1113). -/
def matchNotification (c : CandidateProfile) (job : JobPosting) (s : ℤ)
    (job_id : ℕ) : Notification :=
  { user_id := c.user_id
    title := "New Job Match!"
    message := "A new job \"" ++ job.title ++ "\" matches your profile with "
      ++ toString s ++ "% compatibility!"
    notification_type := "job_match"
    action_url := some (jobUrl job_id) }

/-- `CandidateProfile.query.join(User).filter(User.is_active == True)`
(main.py 1103): candidates whose user account is active. -/
def activeCandidates (db : DB) : List CandidateProfile :=
  db.candidates.filter
    (fun c => db.users.any (fun u => u.id == c.user_id && u.is_active))

/-- `notify_matching_candidates(job_id)` (main.py 1096-1114): no-op when
the job is absent; otherwise each active-account candidate is scored and
a notification is attempted iff the score is at least 70. -/
def notify_matching_candidates (db : DB) (sink : Notification → Bool)
    (job_id : ℕ) : List NotifyEvent :=
  match db.jobs.find? (fun j => j.id == job_id) with
  | none => []
  | some job =>
    (activeCandidates db).flatMap (fun c =>
      let s := calculate_job_match_score db c.id job_id
      if 70 ≤ s then create_notification sink (matchNotification c job s job_id)
      else [])

/-! ## Component bounds -/

theorem pytrunc_of_nonneg {q : ℚ} (h : 0 ≤ q) : pytrunc q = ⌊q⌋ := by
  unfold pytrunc
  rw [if_neg (not_lt.mpr h)]

theorem expComponent_bounds (e r : ℤ) :
    0 ≤ expComponent e r ∧ expComponent e r ≤ 30 := by
  unfold expComponent
  split_ifs <;> norm_num

theorem locComponent_bounds (c j : Option String) :
    0 ≤ locComponent c j ∧ locComponent c j ≤ 10 := by
  rcases c with _ | c <;> rcases j with _ | j <;> simp only [locComponent] <;>
    (try split_ifs) <;> norm_num

theorem salComponent_bounds (e a b : Option ℚ) :
    0 ≤ salComponent e a b ∧ salComponent e a b ≤ 10 := by
  rcases e with _ | e <;> rcases a with _ | a <;> rcases b with _ | b <;>
    simp only [salComponent] <;> (try split_ifs) <;> norm_num

theorem matchedWeights_le_sumWeights (ids : List ℕ) (rs : List JobRequiredSkill) :
    matchedWeights ids rs ≤ sumWeights rs := by
  induction rs with
  | nil => simp [matchedWeights, sumWeights]
  | cons r rest ih =>
    simp only [matchedWeights, sumWeights]
    split_ifs <;> omega

theorem fl_fifty : fl (50 : ℚ) = 50 := by
  have := fl_natCast (n := 50) (by norm_num)
  simpa using this

theorem skillsComponent_bounds (rs : List JobRequiredSkill) (ids : List ℕ) :
    0 ≤ skillsComponent rs ids ∧ skillsComponent rs ids ≤ 50 := by
  unfold skillsComponent
  split_ifs with h1 h2
  · norm_num
  · set t := sumWeights rs with ht
    set m := matchedWeights ids rs with hm
    have hmt : m ≤ t := matchedWeights_le_sumWeights ids rs
    have hm0 : (0:ℚ) ≤ (m:ℚ) := by positivity
    have ht1 : (1:ℚ) ≤ (t:ℚ) := by
      have : 1 ≤ t := h2
      exact_mod_cast this
    have hb1 : (1:ℚ) ≤ fl (t:ℚ) := by
      have := fl_mono (by norm_num : (0:ℚ) ≤ 1) ht1
      rwa [fl_one] at this
    have hb0 : (0:ℚ) < fl (t:ℚ) := lt_of_lt_of_le one_pos hb1
    have hab : fl (m:ℚ) ≤ fl (t:ℚ) := fl_mono hm0 (by exact_mod_cast hmt)
    have ha0 : (0:ℚ) ≤ fl (m:ℚ) := fl_nonneg hm0
    have hdiv0 : (0:ℚ) ≤ fl (m:ℚ) / fl (t:ℚ) := div_nonneg ha0 (le_of_lt hb0)
    have hdiv1 : fl (m:ℚ) / fl (t:ℚ) ≤ 1 := (div_le_one hb0).mpr hab
    have hx0 : (0:ℚ) ≤ fl (fl (m:ℚ) / fl (t:ℚ)) := fl_nonneg hdiv0
    have hx1 : fl (fl (m:ℚ) / fl (t:ℚ)) ≤ 1 := by
      have := fl_mono hdiv0 hdiv1
      rwa [fl_one] at this
    have hy0 : (0:ℚ) ≤ fl (fl (fl (m:ℚ) / fl (t:ℚ)) * 50) := by
      apply fl_nonneg
      positivity
    have hy50 : fl (fl (fl (m:ℚ) / fl (t:ℚ)) * 50) ≤ 50 := by
      have hle : fl (fl (m:ℚ) / fl (t:ℚ)) * 50 ≤ (50:ℚ) := by nlinarith
      have := fl_mono (by positivity) hle
      rwa [fl_fifty] at this
    rw [pytrunc_of_nonneg hy0]
    constructor
    · exact Int.floor_nonneg.mpr hy0
    · have : ⌊fl (fl (fl (m:ℚ) / fl (t:ℚ)) * 50)⌋ ≤ ⌊(50:ℚ)⌋ :=
        Int.floor_le_floor hy50
      simpa using this
  · norm_num

theorem matchScore_bounds (cand : CandidateProfile) (job : JobPosting)
    (rs : List JobRequiredSkill) (cs : List CandidateSkill) :
    0 ≤ matchScore cand job rs cs ∧ matchScore cand job rs cs ≤ 100 := by
  unfold matchScore
  have h1 := expComponent_bounds cand.experience_years job.experience_required
  have h2 := skillsComponent_bounds rs (cs.map (fun s => s.skill_id))
  have h3 := locComponent_bounds cand.location job.location
  have h4 := salComponent_bounds cand.salary_expectation job.salary_min
    job.salary_max
  constructor
  · apply le_min (by omega) (by norm_num)
  · exact min_le_right _ _

/-- C1: for every candidate id and job id the match score returned by
`calculate_job_match_score` is an integer in `[0, 100]`, and (whenever
both ids resolve) equals the minimum of 100 and the sum of the
experience, skills, location and salary components. -/
theorem score_bounds_and_cap (db : DB) (cid jid : ℕ) :
    (0 ≤ calculate_job_match_score db cid jid ∧
      calculate_job_match_score db cid jid ≤ 100) ∧
    (∀ cand job, db.candidates.find? (fun c => c.id == cid) = some cand →
      db.jobs.find? (fun j => j.id == jid) = some job →
      calculate_job_match_score db cid jid =
        min (expComponent cand.experience_years job.experience_required
          + skillsComponent
              (db.jobRequiredSkills.filter (fun r => r.job_id == jid))
              ((db.candidateSkills.filter
                (fun s => s.candidate_id == cid)).map (fun s => s.skill_id))
          + locComponent cand.location job.location
          + salComponent cand.salary_expectation job.salary_min job.salary_max)
        100) := by
  refine ⟨⟨?_, ?_⟩, ?_⟩
  · unfold calculate_job_match_score
    split
    · exact (matchScore_bounds _ _ _ _).1
    · norm_num
  · unfold calculate_job_match_score
    split
    · exact (matchScore_bounds _ _ _ _).2
    · norm_num
  · intro cand job hc hj
    unfold calculate_job_match_score
    rw [hc, hj]
    rfl

/-- Candidate of the spec's §8 concrete scenario, used as witness data. -/
def demoCandidate : CandidateProfile :=
  { id := 1, user_id := 11, experience_years := 5,
    location := some "Berlin", salary_expectation := some 60000 }

/-- Posting of the spec's §8 concrete scenario, used as witness data. -/
def demoJob : JobPosting :=
  { id := 1, company_id := 2, title := "Engineer",
    location := some "Berlin, Germany", experience_required := 5,
    salary_min := some 50000, salary_max := some 70000, is_active := true }

/-- A one-candidate, one-job state for witnesses. -/
def demoDb : DB :=
  { users := [⟨11, true⟩], companies := [⟨2, "ACME"⟩],
    candidates := [demoCandidate], jobs := [demoJob], applications := [],
    candidateSkills := [⟨1, 1⟩],
    jobRequiredSkills := [⟨1, 1, Importance.required, 0⟩] }

theorem score_bounds_and_cap_witness :
    (0 ≤ calculate_job_match_score demoDb 1 1 ∧
      calculate_job_match_score demoDb 1 1 ≤ 100) ∧
    calculate_job_match_score demoDb 1 1 =
      min (expComponent demoCandidate.experience_years
            demoJob.experience_required
        + skillsComponent
            (demoDb.jobRequiredSkills.filter (fun r => r.job_id == 1))
            ((demoDb.candidateSkills.filter
              (fun s => s.candidate_id == 1)).map (fun s => s.skill_id))
        + locComponent demoCandidate.location demoJob.location
        + salComponent demoCandidate.salary_expectation demoJob.salary_min
            demoJob.salary_max)
      100 := by
  have h := score_bounds_and_cap demoDb 1 1
  exact ⟨h.1, h.2 demoCandidate demoJob rfl rfl⟩

/-- C7: when both candidate and job carry a (non-empty) location the
component is 10 on a case-insensitive substring match in either
direction and 5 otherwise - never 0; when either location is absent it
is 0. -/
theorem location_component_cases (c j : String) (o : Option String) :
    (c ≠ "" → j ≠ "" →
      locComponent (some c) (some j) =
        (if charsContain (pyLower c) (pyLower j)
            || charsContain (pyLower j) (pyLower c) then 10 else 5) ∧
      locComponent (some c) (some j) ≠ 0) ∧
    locComponent none o = 0 ∧ locComponent o none = 0 := by
  refine ⟨fun hc hj => ?_, by simp [locComponent], ?_⟩
  · simp only [locComponent]
    rw [if_pos ⟨hc, hj⟩]
    refine ⟨rfl, ?_⟩
    split_ifs <;> norm_num
  · rcases o with _ | s <;> simp [locComponent]

theorem location_component_cases_witness :
    locComponent (some "Berlin") (some "Berlin, Germany") = 10 ∧
    locComponent (some "Berlin") (some "Munich") = 5 ∧
    locComponent none (some "Paris") = 0 := by
  have h1 := location_component_cases "Berlin" "Berlin, Germany" (some "Paris")
  have h2 := location_component_cases "Berlin" "Munich" none
  refine ⟨((h1.1 (by decide) (by decide)).1).trans (by decide),
    ((h2.1 (by decide) (by decide)).1).trans (by decide), h1.2.1⟩

/-- C3: the salary component is evaluated exactly when all three of
expectation, `salary_min`, `salary_max` are present (and non-zero, the
Python truthiness of the guard): then it is 10 inside the range, else 5
within the exact-decimal 1.2 tolerance, else 0; with any of the three
absent it is 0.  The `ℚ` arithmetic here is the exact image of the
`Decimal` arithmetic performed by main.py 437-444. -/
theorem salary_component_cases (e a b : ℚ) (x y : Option ℚ) :
    (e ≠ 0 → a ≠ 0 → b ≠ 0 →
      salComponent (some e) (some a) (some b) =
        if a ≤ e ∧ e ≤ b then 10 else if e ≤ b * (6/5) then 5 else 0) ∧
    salComponent none x y = 0 ∧
    salComponent x none y = 0 ∧
    salComponent x y none = 0 := by
  refine ⟨fun he ha hb => ?_, by simp [salComponent], ?_, ?_⟩
  · simp only [salComponent]
    rw [if_pos ⟨he, ha, hb⟩]
  · rcases x with _ | v <;> simp [salComponent]
  · rcases x with _ | v <;> rcases y with _ | w <;> simp [salComponent]

theorem salary_component_cases_witness :
    salComponent (some 60000) (some 50000) (some 70000) = 10 ∧
    salComponent (some 80000) (some 50000) (some 70000) = 5 ∧
    salComponent (some 90000) (some 50000) (some 70000) = 0 ∧
    salComponent none (some 50000) (some 70000) = 0 := by
  have h1 := (salary_component_cases 60000 50000 70000 none none).1
    (by norm_num) (by norm_num) (by norm_num)
  have h2 := (salary_component_cases 80000 50000 70000 none none).1
    (by norm_num) (by norm_num) (by norm_num)
  have h3 := (salary_component_cases 90000 50000 70000 none none).1
    (by norm_num) (by norm_num) (by norm_num)
  have h4 := (salary_component_cases 0 0 0 (some 50000) (some 70000)).2.1
  refine ⟨h1.trans (by norm_num), h2.trans (by norm_num),
    h3.trans (by norm_num), h4⟩

/-- C10: present-but-falsy optionals are treated as absent - an empty
location string zeroes the location component, and a zero expectation /
`salary_min` / `salary_max` zeroes the salary component even when the
expectation lies inside the range. -/
theorem falsy_fields_zero (o : Option String) (x y : Option ℚ) :
    locComponent (some "") o = 0 ∧
    locComponent o (some "") = 0 ∧
    salComponent (some 0) x y = 0 ∧
    salComponent x (some 0) y = 0 ∧
    salComponent x y (some 0) = 0 := by
  refine ⟨?_, ?_, ?_, ?_, ?_⟩
  · rcases o with _ | s <;> simp [locComponent]
  · rcases o with _ | s <;> simp [locComponent]
  · rcases x with _ | v <;> rcases y with _ | w <;> simp [salComponent]
  · rcases x with _ | v <;> rcases y with _ | w <;> simp [salComponent]
  · rcases x with _ | v <;> rcases y with _ | w <;> simp [salComponent]

/-! ## MatchNotifier theorems -/

theorem flatMap_threshold_eq (l : List CandidateProfile)
    (score : CandidateProfile → ℤ) (mk : CandidateProfile → Notification)
    (sink : Notification → Bool) :
    (l.flatMap (fun c =>
      if 70 ≤ score c then create_notification sink (mk c) else [])) =
    (l.filter (fun c => decide (70 ≤ score c))).map
      (fun c => if sink (mk c) then NotifyEvent.created (mk c)
        else NotifyEvent.errorLogged (mk c)) := by
  induction l with
  | nil => rfl
  | cons c rest ih =>
    by_cases h : 70 ≤ score c
    · simp only [List.flatMap_cons, List.filter_cons, if_pos h,
        decide_eq_true h, List.map_cons, ih]
      unfold create_notification
      by_cases hs : sink (mk c) <;> simp [hs]
    · simp only [List.flatMap_cons, List.filter_cons, if_neg h,
        decide_eq_false h, List.map_cons, ih]
      simp

theorem notify_unfold (db : DB) (sink : Notification → Bool) (jid : ℕ)
    (job : JobPosting) (hj : db.jobs.find? (fun j => j.id == jid) = some job) :
    notify_matching_candidates db sink jid =
      ((activeCandidates db).filter
        (fun c => decide (70 ≤ calculate_job_match_score db c.id jid))).map
        (fun c =>
          if sink (matchNotification c job
              (calculate_job_match_score db c.id jid) jid)
          then NotifyEvent.created (matchNotification c job
              (calculate_job_match_score db c.id jid) jid)
          else NotifyEvent.errorLogged (matchNotification c job
              (calculate_job_match_score db c.id jid) jid)) := by
  unfold notify_matching_candidates
  rw [hj]
  exact flatMap_threshold_eq (activeCandidates db)
    (fun c => calculate_job_match_score db c.id jid)
    (fun c => matchNotification c job
      (calculate_job_match_score db c.id jid) jid) sink

/-- C5: `notify_matching_candidates` is a no-op on an unresolved job id;
otherwise (with every sink write succeeding) exactly the candidates of
active user accounts whose score is at least 70 get one created
notification, carrying the candidate's user id, the fixed title, the
interpolated message, the `job_match` category and the job deep link -
all fixed by `matchNotification`. -/
theorem notify_threshold (db : DB) (jid : ℕ) :
    (db.jobs.find? (fun j => j.id == jid) = none →
      notify_matching_candidates db (fun _ => true) jid = []) ∧
    (∀ job, db.jobs.find? (fun j => j.id == jid) = some job →
      notify_matching_candidates db (fun _ => true) jid =
        ((activeCandidates db).filter
          (fun c => decide (70 ≤ calculate_job_match_score db c.id jid))).map
          (fun c => NotifyEvent.created (matchNotification c job
            (calculate_job_match_score db c.id jid) jid))) := by
  constructor
  · intro h
    unfold notify_matching_candidates
    rw [h]
  · intro job hj
    rw [notify_unfold db (fun _ => true) jid job hj]
    simp

theorem notify_threshold_witness :
    notify_matching_candidates demoDb (fun _ => true) 99 = [] ∧
    notify_matching_candidates demoDb (fun _ => true) 1 =
      ((activeCandidates demoDb).filter
        (fun c => decide (70 ≤ calculate_job_match_score demoDb c.id 1))).map
        (fun c => NotifyEvent.created (matchNotification c demoJob
          (calculate_job_match_score demoDb c.id 1) 1)) := by
  have h := notify_threshold demoDb 1
  have h99 := notify_threshold demoDb 99
  exact ⟨h99.1 rfl, h.2 demoJob rfl⟩

/-- C8: a sink failure for one candidate during the notification batch
is absorbed inside `create_notification` (caught, logged as an
`errorLogged` event) and the batch output for every other candidate is
exactly what its own sink outcome dictates: the batch is a per-candidate
map, it never aborts, and no failure reaches the caller. -/
theorem notify_sink_failure_isolated (db : DB) (jid : ℕ)
    (sink : Notification → Bool) (job : JobPosting)
    (hj : db.jobs.find? (fun j => j.id == jid) = some job) :
    notify_matching_candidates db sink jid =
      ((activeCandidates db).filter
        (fun c => decide (70 ≤ calculate_job_match_score db c.id jid))).map
        (fun c =>
          if sink (matchNotification c job
              (calculate_job_match_score db c.id jid) jid)
          then NotifyEvent.created (matchNotification c job
              (calculate_job_match_score db c.id jid) jid)
          else NotifyEvent.errorLogged (matchNotification c job
              (calculate_job_match_score db c.id jid) jid)) ∧
    (∀ c, c ∈ activeCandidates db →
      70 ≤ calculate_job_match_score db c.id jid →
      sink (matchNotification c job
        (calculate_job_match_score db c.id jid) jid) = true →
      NotifyEvent.created (matchNotification c job
        (calculate_job_match_score db c.id jid) jid)
        ∈ notify_matching_candidates db sink jid) := by
  have heq := notify_unfold db sink jid job hj
  refine ⟨heq, fun c hc hscore hsink => ?_⟩
  rw [heq, List.mem_map]
  refine ⟨c, List.mem_filter.mpr ⟨hc, by simpa using hscore⟩, ?_⟩
  simp [hsink]

theorem notify_sink_failure_isolated_witness :
    notify_matching_candidates demoDb (fun n => n.user_id != 11) 1 =
      ((activeCandidates demoDb).filter
        (fun c => decide (70 ≤ calculate_job_match_score demoDb c.id 1))).map
        (fun c =>
          if (matchNotification c demoJob
              (calculate_job_match_score demoDb c.id 1) 1).user_id != 11
          then NotifyEvent.created (matchNotification c demoJob
              (calculate_job_match_score demoDb c.id 1) 1)
          else NotifyEvent.errorLogged (matchNotification c demoJob
              (calculate_job_match_score demoDb c.id 1) 1)) := by
  exact (notify_sink_failure_isolated demoDb 1
    (fun n => n.user_id != 11) demoJob rfl).1

/-! ## RecommendationEngine theorems -/

/-- C4: `get_job_recommendations` returns `[]` for an unknown candidate;
every returned entry is an active posting the candidate has not applied
to, carries its recomputed score, and scores strictly above 30; the
output is sorted by score descending; and at most 10 entries are
returned. -/
theorem recommendations_contract (db : DB) (cid : ℕ) :
    (db.candidates.find? (fun c => c.id == cid) = none →
      get_job_recommendations db cid = []) ∧
    (∀ e ∈ get_job_recommendations db cid,
      e.job.is_active = true ∧
      (∀ a ∈ db.applications, a.candidate_id = cid → a.job_id ≠ e.job.id) ∧
      30 < e.match_score ∧
      e.match_score = calculate_job_match_score db cid e.job.id ∧
      e.job ∈ db.jobs) ∧
    List.Pairwise (fun a b : RecEntry => b.match_score ≤ a.match_score)
      (get_job_recommendations db cid) ∧
    (get_job_recommendations db cid).length ≤ 10 := by
  rcases hfind : db.candidates.find? (fun c => c.id == cid) with _ | cand
  · have hempty : get_job_recommendations db cid = [] := by
      unfold get_job_recommendations
      rw [hfind]
    refine ⟨fun _ => hempty, ?_, ?_, ?_⟩ <;> simp [hempty]
  · have hrec : get_job_recommendations db cid =
        (((db.jobs.filterMap (fun j =>
          if j.is_active && !(((db.applications.filter
              (fun a => a.candidate_id == cid)).map (fun a => a.job_id)).contains
              j.id) then
            (db.companies.find? (fun co => co.id == j.company_id)).map
              (fun co => (j, co))
          else none)).filterMap (fun jc =>
            if 30 < calculate_job_match_score db cid jc.1.id then
              some ⟨jc.1, jc.2, calculate_job_match_score db cid jc.1.id⟩
            else none)).mergeSort
          (fun a b => decide (b.match_score ≤ a.match_score))).take 10 := by
      unfold get_job_recommendations
      rw [hfind]
    refine ⟨fun h => ?_, ?_, ?_, ?_⟩
    · rw [hfind] at h
      cases h
    · intro e he
      rw [hrec] at he
      have he3 := List.mem_mergeSort.mp (List.mem_of_mem_take he)
      obtain ⟨jc, hjc, hjce⟩ := List.mem_filterMap.mp he3
      by_cases hscore : 30 < calculate_job_match_score db cid jc.1.id
      · rw [if_pos hscore] at hjce
        obtain ⟨j, hj, hjj⟩ := List.mem_filterMap.mp hjc
        by_cases hcond : (j.is_active && !(((db.applications.filter
            (fun a => a.candidate_id == cid)).map (fun a => a.job_id)).contains
            j.id)) = true
        · rw [if_pos hcond] at hjj
          obtain ⟨co, hco1, hco2⟩ := Option.map_eq_some'.mp hjj
          subst hco2
          have heform : e = ⟨j, co, calculate_job_match_score db cid j.id⟩ := by
            injection hjce with h
            exact h.symm
          simp only [Bool.and_eq_true, Bool.not_eq_true'] at hcond
          obtain ⟨hactive, hnotapplied⟩ := hcond
          refine ⟨?_, ?_, ?_, ?_, ?_⟩
          · rw [heform]
            exact hactive
          · intro a ha hacid hajob
            have hjid : a.job_id = j.id := by rw [hajob, heform]
            have hmem : j.id ∈ ((db.applications.filter
                (fun x => x.candidate_id == cid)).map (fun x => x.job_id)) := by
              rw [← hjid]
              exact List.mem_map_of_mem _
                (List.mem_filter.mpr ⟨ha, by simp [hacid]⟩)
            simp_all
          · rw [heform]
            exact hscore
          · rw [heform]
          · rw [heform]
            exact hj
        · rw [if_neg hcond] at hjj
          cases hjj
      · rw [if_neg hscore] at hjce
        cases hjce
    · rw [hrec]
      apply List.Pairwise.sublist (List.take_sublist _ _)
      have hs := @List.sorted_mergeSort RecEntry
          (fun a b : RecEntry => decide (b.match_score ≤ a.match_score))
          (fun a b c h1 h2 => by
            simp only [decide_eq_true_eq] at *
            omega)
          (fun a b => by
            simp only [Bool.or_eq_true, decide_eq_true_eq]
            omega)
          ((db.jobs.filterMap (fun j =>
            if j.is_active && !(((db.applications.filter
                (fun a => a.candidate_id == cid)).map
                (fun a => a.job_id)).contains j.id) then
              (db.companies.find? (fun co => co.id == j.company_id)).map
                (fun co => (j, co))
            else none)).filterMap (fun jc =>
              if 30 < calculate_job_match_score db cid jc.1.id then
                some ⟨jc.1, jc.2, calculate_job_match_score db cid jc.1.id⟩
              else none))
      exact hs.imp (fun h => by simpa using h)
    · rw [hrec]
      exact List.length_take_le _ _

theorem recommendations_contract_witness :
    get_job_recommendations demoDb 99 = [] ∧
    (get_job_recommendations demoDb 1).length ≤ 10 := by
  exact ⟨(recommendations_contract demoDb 99).1 rfl,
    (recommendations_contract demoDb 1).2.2.2⟩

/-! ## Weight ordering (C9) -/

theorem importanceWeight_pos (i : Importance) : 0 < importanceWeight i := by
  cases i <;> simp [importanceWeight]

theorem sumWeights_append (l1 l2 : List JobRequiredSkill) :
    sumWeights (l1 ++ l2) = sumWeights l1 + sumWeights l2 := by
  induction l1 with
  | nil => simp [sumWeights]
  | cons r rest ih => simp [sumWeights, ih]; omega

theorem matchedWeights_append (ids : List ℕ) (l1 l2 : List JobRequiredSkill) :
    matchedWeights ids (l1 ++ l2)
      = matchedWeights ids l1 + matchedWeights ids l2 := by
  induction l1 with
  | nil => simp [matchedWeights]
  | cons r rest ih => simp [matchedWeights, ih]; omega

/-- The skills quotient pipeline is antitone in the total weight. -/
theorem skills_pipeline_antitone {m t1 t2 : ℕ} (h2 : 0 < t2) (h12 : t2 ≤ t1) :
    pytrunc (fl (fl (fl (m : ℚ) / fl (t1 : ℚ)) * 50)) ≤
    pytrunc (fl (fl (fl (m : ℚ) / fl (t2 : ℚ)) * 50)) := by
  have h1 : 0 < t1 := lt_of_lt_of_le h2 h12
  have hm0 : (0:ℚ) ≤ (m:ℚ) := by positivity
  have hfm0 : (0:ℚ) ≤ fl (m:ℚ) := fl_nonneg hm0
  have ht2n : 1 ≤ t2 := h2
  have ht1n : 1 ≤ t1 := h1
  have ht2c : (1:ℚ) ≤ (t2:ℚ) := by exact_mod_cast ht2n
  have ht1c : (1:ℚ) ≤ (t1:ℚ) := by exact_mod_cast ht1n
  have ht12c : (t2:ℚ) ≤ (t1:ℚ) := by exact_mod_cast h12
  have ht2 : (1:ℚ) ≤ fl (t2:ℚ) := by
    have h := fl_mono (by norm_num : (0:ℚ) ≤ 1) ht2c
    rwa [fl_one] at h
  have ht1 : (1:ℚ) ≤ fl (t1:ℚ) := by
    have h := fl_mono (by norm_num : (0:ℚ) ≤ 1) ht1c
    rwa [fl_one] at h
  have htt : fl (t2:ℚ) ≤ fl (t1:ℚ) := fl_mono (by positivity) ht12c
  have hpos2q : (0:ℚ) < fl (t2:ℚ) := lt_of_lt_of_le one_pos ht2
  have hdiv : fl (m:ℚ) / fl (t1:ℚ) ≤ fl (m:ℚ) / fl (t2:ℚ) := by
    gcongr
  have hdiv0 : (0:ℚ) ≤ fl (m:ℚ) / fl (t1:ℚ) :=
    div_nonneg hfm0 (by linarith)
  have hx : fl (fl (m:ℚ) / fl (t1:ℚ)) ≤ fl (fl (m:ℚ) / fl (t2:ℚ)) :=
    fl_mono hdiv0 hdiv
  have hx0 : (0:ℚ) ≤ fl (fl (m:ℚ) / fl (t1:ℚ)) := fl_nonneg hdiv0
  have hmul : fl (fl (m:ℚ) / fl (t1:ℚ)) * 50 ≤ fl (fl (m:ℚ) / fl (t2:ℚ)) * 50 := by
    nlinarith
  have hy : fl (fl (fl (m:ℚ) / fl (t1:ℚ)) * 50) ≤
      fl (fl (fl (m:ℚ) / fl (t2:ℚ)) * 50) :=
    fl_mono (by positivity) hmul
  have hy0 : (0:ℚ) ≤ fl (fl (fl (m:ℚ) / fl (t1:ℚ)) * 50) :=
    fl_nonneg (by positivity)
  rw [pytrunc_of_nonneg hy0, pytrunc_of_nonneg (le_trans hy0 hy)]
  exact Int.floor_le_floor hy

/-- C9: with the candidate lacking the distinguished skill, downgrading
that skill's importance from `Required` to `NiceToHave` (all else equal)
never lowers - and may raise - the match score. -/
theorem required_vs_nice_to_have (cand : CandidateProfile) (job : JobPosting)
    (cs : List CandidateSkill) (pre post : List JobRequiredSkill)
    (jid sid my : ℕ)
    (hnot : sid ∉ cs.map (fun s => s.skill_id)) :
    matchScore cand job (pre ++ ⟨jid, sid, Importance.required, my⟩ :: post) cs ≤
    matchScore cand job (pre ++ ⟨jid, sid, Importance.niceToHave, my⟩ :: post)
      cs := by
  unfold matchScore
  have hskills :
      skillsComponent (pre ++ ⟨jid, sid, Importance.required, my⟩ :: post)
        (cs.map (fun s => s.skill_id)) ≤
      skillsComponent (pre ++ ⟨jid, sid, Importance.niceToHave, my⟩ :: post)
        (cs.map (fun s => s.skill_id)) := by
    set ids := cs.map (fun s => s.skill_id) with hids
    have hmr : matchedWeights ids
        (pre ++ ⟨jid, sid, Importance.required, my⟩ :: post)
        = matchedWeights ids pre + matchedWeights ids post := by
      rw [matchedWeights_append]
      simp only [matchedWeights]
      rw [if_neg hnot]
      omega
    have hmn : matchedWeights ids
        (pre ++ ⟨jid, sid, Importance.niceToHave, my⟩ :: post)
        = matchedWeights ids pre + matchedWeights ids post := by
      rw [matchedWeights_append]
      simp only [matchedWeights]
      rw [if_neg hnot]
      omega
    have htr : sumWeights (pre ++ ⟨jid, sid, Importance.required, my⟩ :: post)
        = sumWeights pre + 3 + sumWeights post := by
      rw [sumWeights_append]
      simp only [sumWeights, importanceWeight]
      omega
    have htn : sumWeights (pre ++ ⟨jid, sid, Importance.niceToHave, my⟩ :: post)
        = sumWeights pre + 1 + sumWeights post := by
      rw [sumWeights_append]
      simp only [sumWeights, importanceWeight]
      omega
    unfold skillsComponent
    have hne1 : ((pre ++ ⟨jid, sid, Importance.required, my⟩ :: post).isEmpty)
        = false := by simp
    have hne2 : ((pre ++ ⟨jid, sid, Importance.niceToHave, my⟩ :: post).isEmpty)
        = false := by simp
    rw [hne1, hne2]
    simp only [Bool.false_eq_true, if_false]
    rw [htr, htn, hmr, hmn]
    have hpos1 : 0 < sumWeights pre + 3 + sumWeights post := by omega
    have hpos2 : 0 < sumWeights pre + 1 + sumWeights post := by omega
    rw [if_pos hpos1, if_pos hpos2]
    exact skills_pipeline_antitone hpos2 (by omega)
  omega

theorem required_vs_nice_to_have_witness :
    matchScore demoCandidate demoJob
      [⟨1, 5, Importance.required, 0⟩] [] ≤
    matchScore demoCandidate demoJob
      [⟨1, 5, Importance.niceToHave, 0⟩] [] := by
  have h := required_vs_nice_to_have demoCandidate demoJob [] [] [] 1 5 0
    (by simp)
  simpa using h

/-! ## Skills component versus the exact floor formula (C2) -/

theorem sumWeights_pos {rs : List JobRequiredSkill} (h : rs ≠ []) :
    0 < sumWeights rs := by
  cases rs with
  | nil => exact absurd rfl h
  | cons r rest =>
    have := importanceWeight_pos r.importance
    simp only [sumWeights]
    omega

/-- C2, amended: for a non-empty required-skill list the binary64
evaluation `int((matched/total)*50)` stays within one of the exact
`floor(matched/total*50)`: it is at most the floor and at least the
floor minus one.  (The exact floor is `(50*m)/t` in integer division.)
The total-weight bound covers every realizable table (3 per row). -/
theorem skills_component_amended (rs : List JobRequiredSkill) (ids : List ℕ) :
    (rs = [] → skillsComponent rs ids = 25) ∧
    (rs ≠ [] → sumWeights rs ≤ 2 ^ 31 →
      skillsComponent rs ids
          ≤ ((50 * matchedWeights ids rs) / sumWeights rs : ℕ) ∧
      (((50 * matchedWeights ids rs) / sumWeights rs : ℕ) : ℤ)
          ≤ skillsComponent rs ids + 1) := by
  constructor
  · intro h
    subst h
    rfl
  · intro hne hbound
    set t := sumWeights rs with htdef
    set m := matchedWeights ids rs with hmdef
    have htpos : 0 < t := sumWeights_pos hne
    have hmt : m ≤ t := matchedWeights_le_sumWeights ids rs
    have hcomp : skillsComponent rs ids
        = pytrunc (fl (fl (fl (m : ℚ) / fl (t : ℚ)) * 50)) := by
      unfold skillsComponent
      rw [← htdef, ← hmdef]
      rw [if_neg (by simp [List.isEmpty_iff, hne]), if_pos htpos]
    have hflm : fl (m:ℚ) = (m:ℚ) := fl_natCast (by omega)
    have hflt : fl (t:ℚ) = (t:ℚ) := fl_natCast (by omega)
    rw [hcomp, hflm, hflt]
    -- exact rational data
    have htq : (0:ℚ) < (t:ℚ) := by exact_mod_cast htpos
    set q : ℚ := (m:ℚ) / (t:ℚ) with hqdef
    have hq0 : 0 ≤ q := by positivity
    have hq1 : q ≤ 1 := by
      rw [hqdef, div_le_one htq]
      exact_mod_cast hmt
    set N : ℕ := (50 * m) / t with hNdef
    set r : ℕ := (50 * m) % t with hrdef
    have hdm : t * N + r = 50 * m := Nat.div_add_mod (50 * m) t
    have hrlt : r < t := Nat.mod_lt _ htpos
    have hdmQ : (t:ℚ) * (N:ℚ) + (r:ℚ) = 50 * (m:ℚ) := by exact_mod_cast hdm
    have hrQ : (r:ℚ) ≤ (t:ℚ) - 1 := by
      have h1 : r + 1 ≤ t := hrlt
      have h2 : (r:ℚ) + 1 ≤ (t:ℚ) := by exact_mod_cast h1
      linarith
    have hr0 : (0:ℚ) ≤ (r:ℚ) := by positivity
    have h50m : 50 * q = 50 * (m:ℚ) / (t:ℚ) := by
      rw [hqdef]
      ring
    have hNle : (N:ℚ) ≤ 50 * q := by
      rw [h50m, le_div_iff₀ htq]
      linarith
    have hNup : 50 * q ≤ (N:ℚ) + 1 - 1 / (t:ℚ) := by
      rw [h50m, div_le_iff₀ htq]
      have hexp : ((N:ℚ) + 1 - 1 / t) * t = t * N + t - 1 := by
        field_simp
        ring
      rw [hexp]
      linarith
    have ht31 : (t:ℚ) ≤ 2 ^ 31 := by exact_mod_cast hbound
    have hinvt : 1 / (2:ℚ)^31 ≤ 1 / (t:ℚ) := by
      apply one_div_le_one_div_of_le htq ht31
    -- first rounding
    have hx_up : fl q ≤ q + q / 2 ^ 53 := fl_le hq0
    have hx_lo : q - q / 2 ^ 53 ≤ fl q := le_fl hq0
    have hx0 : 0 ≤ fl q := fl_nonneg hq0
    have hxq : fl q ≤ 1 + 1 / 2 ^ 53 := by
      have : q / 2 ^ 53 ≤ 1 / 2 ^ 53 := by linarith
      linarith
    -- second rounding
    have hy_up : fl (fl q * 50) ≤ fl q * 50 + fl q * 50 / 2 ^ 53 :=
      fl_le (by positivity)
    have hy_lo : fl q * 50 - fl q * 50 / 2 ^ 53 ≤ fl (fl q * 50) :=
      le_fl (by positivity)
    have hy0 : 0 ≤ fl (fl q * 50) := fl_nonneg (by positivity)
    -- the sandwich in ℚ
    have hyN1 : fl (fl q * 50) < (N:ℚ) + 1 := by
      have e1 : fl q * 50 ≤ 50 * q + 50 * q / 2 ^ 53 := by linarith
      have e2 : 50 * q ≤ 50 := by linarith
      have e3 : fl q * 50 / 2 ^ 53 ≤ (50 + 50 / 2 ^ 53) / 2 ^ 53 := by
        have : fl q * 50 ≤ 50 + 50 / 2 ^ 53 := by linarith
        linarith
      have e4 : fl (fl q * 50) ≤ 50 * q + 50 / 2 ^ 53 + (50 + 50 / 2 ^ 53) / 2 ^ 53 := by
        have : 50 * q / 2 ^ 53 ≤ 50 / 2 ^ 53 := by linarith
        linarith
      have e5 : (101:ℚ) / 2 ^ 53 < 1 / 2 ^ 31 := by norm_num
      have e6 : 50 / (2:ℚ) ^ 53 + (50 + 50 / 2 ^ 53) / 2 ^ 53 ≤ 101 / 2 ^ 53 := by
        norm_num
      linarith
    have hyN0 : (N:ℚ) - 1 < fl (fl q * 50) := by
      have e1 : 50 * q - 50 * q / 2 ^ 53 ≤ fl q * 50 := by linarith
      have e2 : fl q * 50 / 2 ^ 53 ≤ (50 + 50 / 2 ^ 53) / 2 ^ 53 := by
        have : fl q * 50 ≤ 50 + 50 / 2 ^ 53 := by
          have : 50 * q ≤ 50 := by linarith
          linarith
        linarith
      have e3 : 50 * q / 2 ^ 53 ≤ 50 / 2 ^ 53 := by
        have : 50 * q ≤ 50 := by linarith
        linarith
      have e4 : (N:ℚ) - 101 / 2 ^ 53 ≤ fl (fl q * 50) := by linarith
      have : (101:ℚ) / 2 ^ 53 < 1 := by norm_num
      linarith
    rw [pytrunc_of_nonneg hy0]
    constructor
    · have : ⌊fl (fl q * 50)⌋ < (N:ℤ) + 1 := by
        rw [Int.floor_lt]
        push_cast
        exact hyN1
      omega
    · have : ((N:ℤ) - 1 : ℤ) ≤ ⌊fl (fl q * 50)⌋ := by
        rw [Int.le_floor]
        push_cast
        linarith
      omega

theorem skills_component_amended_witness :
    skillsComponent [] [3] = 25 ∧
    (skillsComponent [⟨1, 1, Importance.required, 0⟩] [1]
        ≤ ((50 * matchedWeights [1] [⟨1, 1, Importance.required, 0⟩]) /
          sumWeights [⟨1, 1, Importance.required, 0⟩] : ℕ) ∧
      (((50 * matchedWeights [1] [⟨1, 1, Importance.required, 0⟩]) /
          sumWeights [⟨1, 1, Importance.required, 0⟩] : ℕ) : ℤ)
        ≤ skillsComponent [⟨1, 1, Importance.required, 0⟩] [1] + 1) := by
  exact ⟨(skills_component_amended [] [3]).1 rfl,
    (skills_component_amended [⟨1, 1, Importance.required, 0⟩] [1]).2
      (by simp) (by decide)⟩

/-- A posting with 16 `Required` skills (ids 1-16) and one `Preferred`
skill (id 17): total weight 50. -/
def cex17 : List JobRequiredSkill :=
  [⟨1, 1, Importance.required, 0⟩, ⟨1, 2, Importance.required, 0⟩,
   ⟨1, 3, Importance.required, 0⟩, ⟨1, 4, Importance.required, 0⟩,
   ⟨1, 5, Importance.required, 0⟩, ⟨1, 6, Importance.required, 0⟩,
   ⟨1, 7, Importance.required, 0⟩, ⟨1, 8, Importance.required, 0⟩,
   ⟨1, 9, Importance.required, 0⟩, ⟨1, 10, Importance.required, 0⟩,
   ⟨1, 11, Importance.required, 0⟩, ⟨1, 12, Importance.required, 0⟩,
   ⟨1, 13, Importance.required, 0⟩, ⟨1, 14, Importance.required, 0⟩,
   ⟨1, 15, Importance.required, 0⟩, ⟨1, 16, Importance.required, 0⟩,
   ⟨1, 17, Importance.preferred, 0⟩]

/-- A candidate holding skills 1-9 and 17: matched weight 9*3+2 = 29. -/
def cexIds : List ℕ := [1, 2, 3, 4, 5, 6, 7, 8, 9, 17]

/-- C2 counterexample: at matched weight 29 over total weight 50 the
code computes `int((29/50)*50) = 28` in binary64 (because
`fl(29/50)*50` rounds to just below 29), while the claimed formula
`floor(29/50*50)` gives 29. -/
theorem skills_floor_counterexample :
    matchedWeights cexIds cex17 = 29 ∧
    sumWeights cex17 = 50 ∧
    skillsComponent cex17 cexIds = 28 ∧
    ⌊(29 : ℚ) / 50 * 50⌋ = 29 := by
  have hm : matchedWeights cexIds cex17 = 29 := by decide
  have ht : sumWeights cex17 = 50 := by decide
  have hstep : skillsComponent cex17 cexIds
      = pytrunc (fl (fl (fl (29:ℚ) / fl (50:ℚ)) * 50)) := by
    unfold skillsComponent
    rw [hm, ht]
    have hni : cex17.isEmpty = false := rfl
    rw [hni]
    norm_num
  have h29 : fl (29:ℚ) = 29 := by
    have := fl_natCast (n := 29) (by norm_num)
    simpa using this
  have h50 : fl (50:ℚ) = 50 := fl_fifty
  have hx : fl ((29:ℚ)/50) = 5224175567749775 / 2 ^ 53 := by
    have h0 : (0:ℚ) < 29/50 := by norm_num
    have h1 : (2:ℚ) ^ (-1:ℤ) ≤ 29/50 := by
      rw [show ((-1:ℤ)) = -((1:ℕ):ℤ) from by norm_num, zpow_neg, zpow_natCast]
      norm_num
    have h2 : (29:ℚ)/50 < 2 ^ ((-1:ℤ) + 1) := by
      rw [show ((-1:ℤ) + 1) = 0 from by norm_num, zpow_zero]
      norm_num
    have h3 : rne ((29:ℚ)/50 * 2 ^ ((52:ℤ) - (-1))) = 5224175567749775 := by
      rw [show ((52:ℤ) - (-1)) = ((53:ℕ):ℤ) from by norm_num, zpow_natCast]
      apply rne_eval_down
      · norm_num
      · norm_num
    have hev := flPos_eval h0 h1 h2 h3
    rw [hev, show ((-1:ℤ) - 52) = -((53:ℕ):ℤ) from by norm_num, zpow_neg,
      zpow_natCast]
    ring
  have hy : fl ((5224175567749775 / 2 ^ 53 : ℚ) * 50)
      = 8162774324609023 / 2 ^ 48 := by
    have h0 : (0:ℚ) < (5224175567749775 / 2 ^ 53 : ℚ) * 50 := by positivity
    have h1 : (2:ℚ) ^ (4:ℤ) ≤ (5224175567749775 / 2 ^ 53 : ℚ) * 50 := by
      rw [show ((4:ℤ)) = ((4:ℕ):ℤ) from by norm_num, zpow_natCast]
      norm_num
    have h2 : (5224175567749775 / 2 ^ 53 : ℚ) * 50 < 2 ^ ((4:ℤ) + 1) := by
      rw [show ((4:ℤ) + 1) = ((5:ℕ):ℤ) from by norm_num, zpow_natCast]
      norm_num
    have h3 : rne ((5224175567749775 / 2 ^ 53 : ℚ) * 50 * 2 ^ ((52:ℤ) - 4))
        = 8162774324609023 := by
      rw [show ((52:ℤ) - 4) = ((48:ℕ):ℤ) from by norm_num, zpow_natCast]
      apply rne_eval_down
      · norm_num
      · norm_num
    have hev := flPos_eval h0 h1 h2 h3
    rw [hev, show ((4:ℤ) - 52) = -((48:ℕ):ℤ) from by norm_num, zpow_neg,
      zpow_natCast]
    ring
  have hfloor : pytrunc ((8162774324609023 / 2 ^ 48 : ℚ)) = 28 := by
    rw [pytrunc_of_nonneg (by positivity)]
    apply Int.floor_eq_iff.mpr
    constructor
    · norm_num
    · norm_num
  refine ⟨hm, ht, ?_, by norm_num⟩
  rw [hstep, h29, h50, hx, hy, hfloor]

/-! ## Experience thresholds behave exactly (C6) -/

theorem c07_eval : c07 = 6305039478318694 / 2 ^ 53 := by
  unfold c07
  have h0 : (0:ℚ) < 7/10 := by norm_num
  have h1 : (2:ℚ) ^ (-1:ℤ) ≤ 7/10 := by
    rw [show ((-1:ℤ)) = -((1:ℕ):ℤ) from by norm_num, zpow_neg, zpow_natCast]
    norm_num
  have h2 : (7:ℚ)/10 < 2 ^ ((-1:ℤ) + 1) := by
    rw [show ((-1:ℤ) + 1) = 0 from by norm_num, zpow_zero]
    norm_num
  have h3 : rne ((7:ℚ)/10 * 2 ^ ((52:ℤ) - (-1))) = 6305039478318694 := by
    rw [show ((52:ℤ) - (-1)) = ((53:ℕ):ℤ) from by norm_num, zpow_natCast]
    apply rne_eval_down
    · norm_num
    · norm_num
  rw [flPos_eval h0 h1 h2 h3, show ((-1:ℤ) - 52) = -((53:ℕ):ℤ) from by norm_num,
    zpow_neg, zpow_natCast]
  ring

theorem c05_eval : c05 = 1/2 := by
  unfold c05
  have h0 : (0:ℚ) < 1/2 := by norm_num
  have h1 : (2:ℚ) ^ (-1:ℤ) ≤ 1/2 := by
    rw [show ((-1:ℤ)) = -((1:ℕ):ℤ) from by norm_num, zpow_neg, zpow_natCast]
    norm_num
  have h2 : (1:ℚ)/2 < 2 ^ ((-1:ℤ) + 1) := by
    rw [show ((-1:ℤ) + 1) = 0 from by norm_num, zpow_zero]
    norm_num
  have h3 : rne ((1:ℚ)/2 * 2 ^ ((52:ℤ) - (-1))) = 4503599627370496 := by
    rw [show ((52:ℤ) - (-1)) = ((53:ℕ):ℤ) from by norm_num, zpow_natCast]
    apply rne_eval_down
    · norm_num
    · norm_num
  rw [flPos_eval h0 h1 h2 h3, show ((-1:ℤ) - 52) = -((53:ℕ):ℤ) from by norm_num,
    zpow_neg, zpow_natCast]
  norm_num

/-- A dyadic rational whose grid exponent is fine enough is a binary64
value, hence fixed by rounding. -/
theorem flPos_dyadic {z : ℤ} {d : ℕ} (hz : 0 < z)
    (hE : Int.log 2 ((z:ℚ) / 2 ^ d) ≤ 52 - d) :
    flPos ((z:ℚ) / 2 ^ d) = (z:ℚ) / 2 ^ d := by
  have h0 : (0:ℚ) < (z:ℚ) / 2 ^ d := by
    have : (0:ℚ) < (z:ℚ) := by exact_mod_cast hz
    positivity
  set E := Int.log 2 ((z:ℚ) / 2 ^ d) with hEdef
  have hnn : 0 ≤ 52 - (d:ℤ) - E := by omega
  have htn : (((52 - (d:ℤ) - E).toNat : ℤ)) = 52 - (d:ℤ) - E :=
    Int.toNat_of_nonneg hnn
  apply flPos_grid_self h0 (k := z * 2 ^ ((52 - (d:ℤ) - E).toNat))
  rw [← hEdef]
  have hcast : ((z * 2 ^ ((52 - (d:ℤ) - E).toNat) : ℤ) : ℚ)
      = (z:ℚ) * (2:ℚ) ^ (((52 - (d:ℤ) - E).toNat : ℕ)) := by
    push_cast
    ring
  rw [hcast, show ((2:ℚ) ^ (((52 - (d:ℤ) - E).toNat : ℕ)))
      = (2:ℚ) ^ ((((52 - (d:ℤ) - E).toNat : ℕ) : ℤ))
      from (zpow_natCast (2:ℚ) _).symm, htn,
    mul_assoc, ← zpow_add₀ (by norm_num : (2:ℚ) ≠ 0),
    show (52 - (d:ℤ) - E + (E - 52)) = -((d:ℕ):ℤ) from by ring,
    zpow_neg, zpow_natCast]
  ring

/-- The binary64 comparison `eyears >= ereq * 0.7` decides exactly the
rational predicate `7*ereq ≤ 10*eyears` throughout the INTEGER column
range. -/
theorem exp07_iff {n h : ℤ} (hn0 : 0 ≤ n) (hnB : n < 2 ^ 31) (hh0 : 0 ≤ h) :
    fl ((n:ℚ) * c07) ≤ (h:ℚ) ↔ 7 * n ≤ 10 * h := by
  have hc : c07 = 6305039478318694 / 2 ^ 53 := c07_eval
  rcases eq_or_lt_of_le hn0 with hz | hpos
  · rw [show ((n:ℚ)) * c07 = 0 from by rw [← hz]; norm_num, fl_zero]
    constructor
    · intro _
      omega
    · intro _
      exact_mod_cast hh0
  · have hnpos : (0:ℚ) < (n:ℚ) := by exact_mod_cast hpos
    have hnQ : (n:ℚ) < 2 ^ 31 := by exact_mod_cast hnB
    have hc07pos : (0:ℚ) < c07 := by rw [hc]; norm_num
    have hcub : c07 < 7/10 := by rw [hc]; norm_num
    have hclb : 7/10 - 1/(5 * 2 ^ 52) ≤ c07 := by rw [hc]; norm_num
    have hq0 : (0:ℚ) < (n:ℚ) * c07 := by positivity
    have hqub : (n:ℚ) * c07 < 7/10 * (n:ℚ) := by nlinarith
    have hqlb : 7/10 * (n:ℚ) - (n:ℚ)/(5 * 2 ^ 52) ≤ (n:ℚ) * c07 := by nlinarith
    have e2 : (n:ℚ) / (5 * 2 ^ 52) + 7 / 10 * (n:ℚ) / 2 ^ 53 < 1 / 10 := by
      have e2a : (n:ℚ) / (5 * 2 ^ 52) ≤ (2:ℚ) ^ 31 / (5 * 2 ^ 52) := by linarith
      have e2b : 7 / 10 * (n:ℚ) / 2 ^ 53 ≤ 7 / 10 * (2:ℚ) ^ 31 / 2 ^ 53 := by
        linarith
      have e2c : (2:ℚ) ^ 31 / (5 * 2 ^ 52) + 7 / 10 * (2:ℚ) ^ 31 / 2 ^ 53
          < 1 / 10 := by norm_num
      linarith
    constructor
    · intro hle
      by_contra hcon
      push_neg at hcon
      have hcon' : 10 * h + 1 ≤ 7 * n := by omega
      have hhQ : 10 * (h:ℚ) + 1 ≤ 7 * (n:ℚ) := by exact_mod_cast hcon'
      have hfl_lb : (n:ℚ) * c07 - (n:ℚ) * c07 / 2 ^ 53 ≤ fl ((n:ℚ) * c07) :=
        le_fl (le_of_lt hq0)
      have e1 : (n:ℚ) * c07 / 2 ^ 53 ≤ 7 / 10 * (n:ℚ) / 2 ^ 53 := by linarith
      have : (h:ℚ) < fl ((n:ℚ) * c07) := by linarith
      linarith
    · intro hge
      rcases eq_or_lt_of_le hge with heq | hlt
      · have hhQ : 7 * (n:ℚ) = 10 * (h:ℚ) := by exact_mod_cast heq
        have hqlt31 : (n:ℚ) * c07 < (2:ℚ) ^ (31:ℕ) := by nlinarith
        have hE30 : Int.log 2 ((n:ℚ) * c07) ≤ 30 := by
          have := log_le_of_lt_two_pow hq0 hqlt31
          omega
        set E := Int.log 2 ((n:ℚ) * c07) with hEdef
        have htn : (((52 - E).toNat : ℤ)) = 52 - E :=
          Int.toNat_of_nonneg (by omega)
        have hcast : ((h * 2 ^ ((52 - E).toNat) : ℤ) : ℚ)
            = (h:ℚ) * (2:ℚ) ^ (((52 - E).toNat : ℕ)) := by
          push_cast
          ring
        have hgrid : ((h * 2 ^ ((52 - E).toNat) : ℤ) : ℚ) * 2 ^ (E - 52)
            = (h:ℚ) := by
          rw [hcast, show ((2:ℚ) ^ (((52 - E).toNat : ℕ)))
              = (2:ℚ) ^ ((((52 - E).toNat : ℕ) : ℤ))
              from (zpow_natCast (2:ℚ) _).symm, htn,
            mul_assoc, ← zpow_add₀ (by norm_num : (2:ℚ) ≠ 0),
            show (52 - E + (E - 52)) = (0:ℤ) from by ring, zpow_zero, mul_one]
        have hqh : (n:ℚ) * c07 ≤ (h:ℚ) := by nlinarith
        have hqh' : (n:ℚ) * c07
            ≤ ((h * 2 ^ ((52 - E).toNat) : ℤ) : ℚ) * 2 ^ (E - 52) := by
          rw [hgrid]
          exact hqh
        rw [fl_of_pos hq0]
        calc flPos ((n:ℚ) * c07)
            ≤ ((h * 2 ^ ((52 - E).toNat) : ℤ) : ℚ) * 2 ^ (E - 52) :=
              flPos_le_of_le_grid hq0 hqh'
        _ = (h:ℚ) := hgrid
      · have h7 : 7 * n + 1 ≤ 10 * h := by omega
        have hhQ : 7 * (n:ℚ) + 1 ≤ 10 * (h:ℚ) := by exact_mod_cast h7
        have hfl_ub : fl ((n:ℚ) * c07)
            ≤ (n:ℚ) * c07 + (n:ℚ) * c07 / 2 ^ 53 := fl_le (le_of_lt hq0)
        have e1 : (n:ℚ) * c07 / 2 ^ 53 ≤ 7 / 10 * (n:ℚ) / 2 ^ 53 := by linarith
        have e3 : 7 / 10 * (n:ℚ) / 2 ^ 53 < 1 / 10 := by
          have : 7 / 10 * (n:ℚ) / 2 ^ 53 ≤ 7 / 10 * (2:ℚ) ^ 31 / 2 ^ 53 := by
            linarith
          have : 7 / 10 * (2:ℚ) ^ 31 / 2 ^ 53 < 1 / 10 := by norm_num
          linarith
        linarith

/-- The binary64 comparison `eyears >= ereq * 0.5` decides exactly the
rational predicate `ereq ≤ 2*eyears` throughout the INTEGER column
range (0.5 is a power of two, so the product is exact). -/
theorem exp05_iff {n h : ℤ} (hn0 : 0 ≤ n) (hnB : n < 2 ^ 31) (hh0 : 0 ≤ h) :
    fl ((n:ℚ) * c05) ≤ (h:ℚ) ↔ n ≤ 2 * h := by
  rcases eq_or_lt_of_le hn0 with hz | hpos
  · rw [show ((n:ℚ)) * c05 = 0 from by rw [← hz]; norm_num, fl_zero]
    constructor
    · intro _
      omega
    · intro _
      exact_mod_cast hh0
  · have hnpos : (0:ℚ) < (n:ℚ) := by exact_mod_cast hpos
    have hnQ : (n:ℚ) < 2 ^ 31 := by exact_mod_cast hnB
    have hEq : (n:ℚ) * c05 = (n:ℚ) / 2 ^ (1:ℕ) := by
      rw [c05_eval, pow_one]
      ring
    have hq0 : (0:ℚ) < (n:ℚ) / 2 ^ (1:ℕ) := by positivity
    have hqlt : (n:ℚ) / 2 ^ (1:ℕ) < 2 ^ (31:ℕ) := by
      have : (n:ℚ) / 2 ^ (1:ℕ) ≤ (n:ℚ) := by
        rw [div_le_iff₀ (by norm_num : (0:ℚ) < (2:ℚ) ^ (1:ℕ))]
        nlinarith
      calc (n:ℚ) / 2 ^ (1:ℕ) ≤ (n:ℚ) := this
      _ < 2 ^ (31:ℕ) := by exact_mod_cast hnB
    have hE : Int.log 2 ((n:ℚ) / 2 ^ (1:ℕ)) ≤ 52 - (1:ℕ) := by
      have := log_le_of_lt_two_pow hq0 hqlt
      omega
    rw [hEq, fl_of_pos hq0, flPos_dyadic hpos hE,
      div_le_iff₀ (by norm_num : (0:ℚ) < (2:ℚ) ^ (1:ℕ)),
      show ((h:ℚ)) * 2 ^ (1:ℕ) = ((2 * h : ℤ) : ℚ) from by push_cast; ring]
    exact ⟨fun hx => by exact_mod_cast hx, fun hx => by exact_mod_cast hx⟩

/-- C6: throughout the ranges the columns can hold, the experience
component is the exact tier function - 30 when `have ≥ req`, else 20
when `have ≥ 0.7·req` in exact rational arithmetic, else 10 when
`have ≥ 0.5·req`, else 0; in particular `req = 0` always lands in the
first tier.  The binary64 evaluation of `req*0.7` and `req*0.5` never
disagrees with the exact comparison on integer inputs in range. -/
theorem experience_component_tiers (eyears ereq : ℤ)
    (h1 : 0 ≤ eyears) (h2 : 0 ≤ ereq) (h3 : ereq < 2 ^ 31) :
    expComponent eyears ereq =
      (if ereq ≤ eyears then 30
       else if 7 * ereq ≤ 10 * eyears then 20
       else if ereq ≤ 2 * eyears then 10
       else 0) := by
  unfold expComponent
  have hfe : fl (ereq:ℚ) = (ereq:ℚ) := fl_intCast h2 (by omega)
  rw [hfe]
  have hiff07 := exp07_iff h2 h3 h1
  have hiff05 := exp05_iff h2 h3 h1
  by_cases hA : ereq ≤ eyears
  · rw [if_pos hA, if_pos hA]
  · rw [if_neg hA, if_neg hA]
    by_cases hB : 7 * ereq ≤ 10 * eyears
    · rw [if_pos (hiff07.mpr hB), if_pos hB]
    · rw [if_neg (fun hc => hB (hiff07.mp hc)), if_neg hB]
      by_cases hC : ereq ≤ 2 * eyears
      · rw [if_pos (hiff05.mpr hC), if_pos hC]
      · rw [if_neg (fun hc => hC (hiff05.mp hc)), if_neg hC]

theorem experience_component_tiers_witness :
    expComponent 7 10 = 20 ∧ expComponent 4 10 = 0 ∧ expComponent 3 0 = 30 := by
  have hw1 := experience_component_tiers 7 10 (by norm_num) (by norm_num)
    (by norm_num)
  have hw2 := experience_component_tiers 4 10 (by norm_num) (by norm_num)
    (by norm_num)
  have hw3 := experience_component_tiers 3 0 (by norm_num) (by norm_num)
    (by norm_num)
  refine ⟨?_, ?_, ?_⟩
  · rw [hw1]
    norm_num
  · rw [hw2]
    norm_num
  · rw [hw3]
    norm_num

end JobMatch
